import Mathlib

/-!
Verification of the histologydata dataset-integrity and loading layer.

The Python sources are shallowly embedded: filenames and paths are `List Char`,
fallible code returns `Except PyErr`, pandas/NumPy tables are plain lists.
Each embedded definition keeps the name of the Python function it models.
-/

set_option maxHeartbeats 1000000

namespace Histology

/-- Python exceptions / error conditions raised by the embedded code.
`ambiguousMetadataFile` is the error the specification document predicts for
a folder holding several JSON files; the code itself never raises it. -/
inductive PyErr where
  | notFound
  | metadataNotFound
  | ambiguousMetadataFile
  | malformedMetadata
  | noIdentifierFound
  | singularMatrix
  | unboundLocal
  | indexError
  | keyError
  | typeError
deriving DecidableEq, Repr

/-! ## String utilities shared by the embedded modules

Python strings are modelled as `List Char`; these helpers model the string
operations the sources use (`in`, `str.split`, `str(i)`, `int(s)`). -/

/-- Python's substring containment `needle in hay`.  The empty needle is
contained in every string, as in Python. -/
def containsSub (needle : List Char) : List Char → Bool
  | [] => needle.isPrefixOf []
  | c :: rest => needle.isPrefixOf (c :: rest) || containsSub needle rest

/-- Python's `s.split(sep)[0]` for a non-empty separator: the prefix of `s`
before the first occurrence of `sep`, or all of `s` when `sep` never occurs. -/
def beforeFirst (sep : List Char) : List Char → List Char
  | [] => []
  | c :: rest =>
    if sep.isPrefixOf (c :: rest) then []
    else c :: beforeFirst sep rest

/-- Python's `s.split('/')[-1]`: everything after the last slash
(the whole string when no slash occurs). -/
def afterLastSlash (s : List Char) : List Char :=
  s.foldl (fun acc c => if c = '/' then [] else acc ++ [c]) []

/-- Python's `str(i)` for a natural number, as a character list. -/
def natStr (n : Nat) : List Char :=
  (Nat.toDigits 10 n)

/-- Python's `int(s)` on a string of decimal digits. -/
def digitsToNat (s : List Char) : Nat :=
  s.foldl (fun acc c => 10 * acc + (c.toNat - 48)) 0

/-! ## NamingMatcher: numeric-ID extraction

Embeds `int(re.findall('\d+', str(filename))[0])` as used by
`lib/PointcloudTransform.py` and `lib/ImageSegmentation.py`:
all maximal runs of decimal digits, in order, then the first one. -/

/-- Worker for `re.findall('\\d+', s)`: `run` holds (reversed) the digit
run currently being read. -/
def findallDigitsGo : List Char → List Char → List (List Char)
  | [], run => if run.isEmpty then [] else [run.reverse]
  | c :: rest, run =>
    if c.isDigit then findallDigitsGo rest (c :: run)
    else if run.isEmpty then findallDigitsGo rest []
    else run.reverse :: findallDigitsGo rest []

/-- `re.findall('\\d+', s)`: the maximal runs of decimal digits of `s`,
left to right. -/
def findallDigits (s : List Char) : List (List Char) :=
  findallDigitsGo s []

/-- `extract_id`: value of the first maximal digit run of the filename;
raises (`IndexError`, glossed `noIdentifierFound`) when no digit occurs. -/
def extract_id (s : List Char) : Except PyErr Nat :=
  match findallDigits s with
  | [] => .error .noIdentifierFound
  | r :: _ => .ok (digitsToNat r)

theorem findallDigits_eq_nil (s : List Char) (h : ∀ c ∈ s, c.isDigit = false) :
    findallDigits s = [] := by
  rw [findallDigits]
  induction s with
  | nil => rfl
  | cons c rest ih =>
    rw [findallDigitsGo, if_neg (by simp [h c (by simp)]), if_pos List.isEmpty_nil]
    exact ih (fun x hx => h x (by simp [hx]))

theorem findallDigitsGo_skip (pre t : List Char)
    (hpre : ∀ c ∈ pre, c.isDigit = false) :
    findallDigitsGo (pre ++ t) [] = findallDigitsGo t [] := by
  induction pre with
  | nil => rfl
  | cons c pre' ih =>
    rw [List.cons_append, findallDigitsGo,
      if_neg (by simp [hpre c (by simp)]), if_pos List.isEmpty_nil]
    exact ih (fun x hx => hpre x (by simp [hx]))

theorem findallDigitsGo_run (run : List Char)
    (hdig : ∀ c ∈ run, c.isDigit = true) :
    ∀ (post acc : List Char),
      findallDigitsGo (run ++ post) acc = findallDigitsGo post (run.reverse ++ acc) := by
  induction run with
  | nil => intro post acc; rfl
  | cons c run' ih =>
    intro post acc
    rw [List.cons_append, findallDigitsGo, if_pos (hdig c (by simp)),
      ih (fun x hx => hdig x (by simp [hx])) post (c :: acc)]
    simp

theorem findallDigitsGo_flush (post acc : List Char) (hacc : acc ≠ [])
    (hpost : ∀ c ∈ post.take 1, c.isDigit = false) :
    findallDigitsGo post acc = acc.reverse :: findallDigitsGo post [] := by
  cases post with
  | nil =>
    rw [findallDigitsGo, if_neg (by simp [hacc]), findallDigitsGo, if_pos List.isEmpty_nil]
  | cons p ps =>
    have hp : p.isDigit = false := hpost p (by simp)
    rw [findallDigitsGo, if_neg (by simp [hp]), if_neg (by simp [hacc]),
      findallDigitsGo, if_neg (by simp [hp]), if_pos List.isEmpty_nil]

theorem findallDigits_decomp (pre run post : List Char)
    (hpre : ∀ c ∈ pre, c.isDigit = false)
    (hrun : run ≠ []) (hdig : ∀ c ∈ run, c.isDigit = true)
    (hpost : ∀ c ∈ post.take 1, c.isDigit = false) :
    findallDigits (pre ++ run ++ post) = run :: findallDigits post := by
  rw [findallDigits, findallDigits, List.append_assoc,
    findallDigitsGo_skip pre (run ++ post) hpre,
    findallDigitsGo_run run hdig post [],
    findallDigitsGo_flush post (run.reverse ++ []) (by simp [hrun]) hpost]
  simp

/-- First-digit-run characterization of `extract_id`, shared by the
claim-level theorems below. -/
theorem extract_id_of_decomp (pre run post : List Char)
    (hpre : ∀ c ∈ pre, c.isDigit = false)
    (hrun : run ≠ []) (hdig : ∀ c ∈ run, c.isDigit = true)
    (hpost : ∀ c ∈ post.take 1, c.isDigit = false) :
    extract_id (pre ++ run ++ post) = .ok (digitsToNat run) := by
  rw [extract_id, findallDigits_decomp pre run post hpre hrun hdig hpost]

/-- C7: `extract_id` returns the integer value of the first maximal run of
decimal digits found anywhere in the filename, independently of the
surrounding text, and fails with `noIdentifierFound` when the filename
contains no digit; in particular both `IMG_depth_original_12.png` and
`12_anything.json` extract to 12. -/
theorem extract_id_spec :
    (∀ pre run post : List Char,
      (∀ c ∈ pre, c.isDigit = false) → run ≠ [] → (∀ c ∈ run, c.isDigit = true) →
      (∀ c ∈ post.take 1, c.isDigit = false) →
      extract_id (pre ++ run ++ post) = .ok (digitsToNat run))
    ∧ (∀ s : List Char, (∀ c ∈ s, c.isDigit = false) →
      extract_id s = .error .noIdentifierFound)
    ∧ extract_id "IMG_depth_original_12.png".toList = .ok 12
    ∧ extract_id "12_anything.json".toList = .ok 12 := by
  refine ⟨extract_id_of_decomp, ?_, rfl, rfl⟩
  intro s hs
  rw [extract_id, findallDigits_eq_nil s hs]

/-- Witness for C7: concrete instantiation of each quantified part. -/
theorem extract_id_spec_witness :
    extract_id ("scan_".toList ++ "007".toList ++ "_x.ply".toList) = .ok 7 ∧
    extract_id "no.digits.here".toList = .error .noIdentifierFound := by
  constructor
  · exact extract_id_spec.1 "scan_".toList "007".toList "_x.ply".toList
      (by decide) (by decide) (by decide) (by decide)
  · exact extract_id_spec.2.1 "no.digits.here".toList (by decide)

/-! ## IntegrityValidator: scanner hemisphere check

Embeds `validate_scan_data_integrity` from `load_dataframe_demo.py`.
Only list lengths matter to the validator; images and poses are kept as
filename lists / parsed pose documents in the loader below. -/

/-- One hemisphere of assembled scanner data: the four image sequences and
the camera-pose sequence (`data['color']['original']` etc.). -/
structure ScanHemisphere (Img Pose : Type) where
  color_original : List Img
  color_segmented : List Img
  depth_original : List Img
  depth_segmented : List Img
  poses : List Pose
deriving DecidableEq

/-- `validate_scan_data_integrity(data)`: returns
`(first_check, second_check, n_scans)`. -/
def validate_scan_data_integrity {Img Pose : Type} (data : ScanHemisphere Img Pose) :
    Bool × Bool × Nat :=
  -- first check: chained `len(cs) == len(co) == len(ds) == len(do)`
  let first_check :=
    data.color_segmented.length = data.color_original.length ∧
    data.color_original.length = data.depth_segmented.length ∧
    data.depth_segmented.length = data.depth_original.length
  if first_check then
    let n_scans := data.color_original.length
    -- second check: number of original color scans vs number of poses
    if data.color_original.length = data.poses.length then
      (true, true, n_scans)
    else
      (true, false, n_scans)
  else
    (false, false, 0)

/-- C2: the scanner validator's `countsOk` is true iff all four image
sequences have equal length; on success `validCount` is that common length,
otherwise `validCount` is 0 and `identityOk` is false; `identityOk` is true
iff counts match and the length equals the pose count; and a hemisphere with
10 original color images but 9 segmented depth images fails the count check. -/
theorem validate_scan_spec {Img Pose : Type} (d : ScanHemisphere Img Pose) :
    ((validate_scan_data_integrity d).1 = true ↔
      (d.color_original.length = d.color_segmented.length ∧
       d.color_original.length = d.depth_original.length ∧
       d.color_original.length = d.depth_segmented.length))
    ∧ ((validate_scan_data_integrity d).1 = true →
        (validate_scan_data_integrity d).2.2 = d.color_original.length)
    ∧ ((validate_scan_data_integrity d).1 = false →
        (validate_scan_data_integrity d).2.1 = false ∧
        (validate_scan_data_integrity d).2.2 = 0)
    ∧ ((validate_scan_data_integrity d).2.1 = true ↔
        ((validate_scan_data_integrity d).1 = true ∧
         d.color_original.length = d.poses.length))
    ∧ (d.color_original.length = 10 → d.depth_segmented.length = 9 →
        (validate_scan_data_integrity d).1 = false) := by
  unfold validate_scan_data_integrity
  by_cases h : (d.color_segmented.length = d.color_original.length ∧
      d.color_original.length = d.depth_segmented.length ∧
      d.depth_segmented.length = d.depth_original.length)
  · obtain ⟨h1, h2, h3⟩ := h
    by_cases h4 : d.color_original.length = d.poses.length <;> simp_all
  · simp only [h, dif_neg, not_false_iff]
    constructor
    · constructor
      · intro hfalse; simp at hfalse
      · intro ⟨a, b, c⟩; exact absurd ⟨a.symm, by omega, by omega⟩ h
    · refine ⟨by simp, by simp, by simp, ?_⟩
      intro h10 h9
      simp

/-- Witness for C2: a hemisphere with 10 original color images and 9
segmented depth images fails the count check with count 0 and identity
false; a consistent hemisphere of 3 scans and 3 poses passes everything. -/
theorem validate_scan_spec_witness :
    (validate_scan_data_integrity
      { color_original := List.replicate 10 0
        color_segmented := List.replicate 10 0
        depth_original := List.replicate 10 0
        depth_segmented := List.replicate 9 0
        poses := List.replicate 10 0 : ScanHemisphere Nat Nat }).1 = false ∧
    validate_scan_data_integrity
      { color_original := [1, 2, 3]
        color_segmented := [1, 2, 3]
        depth_original := [1, 2, 3]
        depth_segmented := [1, 2, 3]
        poses := [1, 2, 3] : ScanHemisphere Nat Nat } = (true, true, 3) := by
  constructor
  · exact (validate_scan_spec _).2.2.2.2 (by decide) (by decide)
  · have h := validate_scan_spec
      { color_original := [1, 2, 3], color_segmented := [1, 2, 3],
        depth_original := [1, 2, 3], depth_segmented := [1, 2, 3],
        poses := [1, 2, 3] : ScanHemisphere Nat Nat }
    have h1 : (validate_scan_data_integrity
        { color_original := [1, 2, 3], color_segmented := [1, 2, 3],
          depth_original := [1, 2, 3], depth_segmented := [1, 2, 3],
          poses := [1, 2, 3] : ScanHemisphere Nat Nat }).1 = true :=
      h.1.mpr (by decide)
    have h2 := h.2.2.2.1.mpr ⟨h1, by decide⟩
    have h3 := h.2.1 h1
    have : ([1, 2, 3] : List Nat).length = 3 := by decide
    exact Prod.ext h1 (Prod.ext h2 (by rw [h3, this]))

/-! ## IntegrityValidator: ultrasound check

Embeds `validate_us_data_integrity` from `load_dataframe_demo.py`.
`data['data']` is the transposed signal table (one row per signal, labelled
by signal name), `data['metadata']` the per-point label table with its
`file_id` column, `data['images']` the loaded PIL images (with the filename
they were opened from). -/

/-- A loaded PIL image: the validator only looks at `el.filename`. -/
structure USImage where
  filename : List Char
deriving DecidableEq

/-- The assembled `data['UltrasoundPlatform']` dictionary, reduced to the
fields the validator reads. -/
structure USDataset where
  /-- row labels (index) of the signal table `data['data']` -/
  dataIndex : List (List Char)
  /-- the `file_id` column of `data['metadata']`, one value per row -/
  metaFileIds : List (List Char)
  /-- `data['images']` -/
  images : List USImage
deriving DecidableEq

/-- `pandas.Series.unique`: distinct values in order of first appearance. -/
def uniqueFirstAux (seen : List (List Char)) : List (List Char) → List (List Char)
  | [] => []
  | x :: rest =>
    if x ∈ seen then uniqueFirstAux seen rest
    else x :: uniqueFirstAux (x :: seen) rest

def uniqueFirst (l : List (List Char)) : List (List Char) :=
  uniqueFirstAux [] l

/-- NumPy `(a == b).all()` on one-dimensional object arrays: elementwise when
the shapes agree, broadcast when one side has a single element, `False` on
any other shape mismatch (legacy NumPy comparison semantics). -/
def npArrayEqAll (xs ys : List (List Char)) : Bool :=
  if xs.length = ys.length then xs == ys
  else if xs.length = 1 then ys.all (fun y => xs.head? == some y)
  else if ys.length = 1 then xs.all (fun x => ys.head? == some x)
  else false

/-- `validate_us_data_integrity(data)`: returns
`(first_check, second_check, n_labels)`. -/
def validate_us_data_integrity (d : USDataset) : Bool × Bool × Nat :=
  -- first check: chained `len(data) == len(metadata) == len(images)`
  if d.dataIndex.length = d.metaFileIds.length ∧
      d.metaFileIds.length = d.images.length then
    let n_labels := (uniqueFirst d.metaFileIds).length
    -- second check: `(metadata['file_id'].unique() == data.index.values).all()`
    -- then per-pair `file_id in el.filename` over `zip(images, file_ids)`
    let second_check :=
      if npArrayEqAll (uniqueFirst d.metaFileIds) d.dataIndex then
        (d.images.zip d.metaFileIds).countP
          (fun p => containsSub p.2 p.1.filename) == n_labels
      else false
    (true, second_check, n_labels)
  else
    (false, false, 0)

/-! Spec-side definitions for C1, following the specification's words:
"the sorted set of `file_id` values in metadata exactly equals the sorted
set of signal-table row labels, AND each image's associated filename
contains its paired `file_id` as a substring". -/

/-- Lexicographic order on filenames, used only to build sorted sets. -/
def lexLe : List Char → List Char → Bool
  | [], _ => true
  | _ :: _, [] => false
  | a :: as, b :: bs => if a = b then lexLe as bs else decide (a < b)

def insertSorted (x : List Char) : List (List Char) → List (List Char)
  | [] => [x]
  | y :: rest => if lexLe x y then x :: y :: rest else y :: insertSorted x rest

/-- The sorted set of values of a list: distinct values, sorted. -/
def sortedSet (l : List (List Char)) : List (List Char) :=
  (uniqueFirst l).foldr insertSorted []

/-- Modelled from the spec: the identity check C1 claims the validator
performs (sorted-set equality plus paired substring containment). -/
def specIdentityOk (d : USDataset) : Bool :=
  sortedSet d.metaFileIds == sortedSet d.dataIndex &&
  (d.images.zip d.metaFileIds).all (fun p => containsSub p.2 p.1.filename)

/-- The dataset refuting C1: equal counts, equal sorted sets of ids, every
image filename containing its paired id — yet the code's order-sensitive
comparison fails. -/
def usCounterexample : USDataset :=
  { dataIndex := ["a".toList, "b".toList]
    metaFileIds := ["b".toList, "a".toList]
    images := [⟨"img_b.jpg".toList⟩, ⟨"img_a.jpg".toList⟩] }

/-- Counterexample to C1: on `usCounterexample` the counts match and the
spec's identity condition holds, but the validator returns `identityOk =
false`, because it compares the id sequences position by position instead
of as sorted sets. -/
theorem validate_us_counterexample :
    (validate_us_data_integrity usCounterexample).1 = true ∧
    specIdentityOk usCounterexample = true ∧
    (validate_us_data_integrity usCounterexample).2.1 = false := by
  decide

theorem mem_uniqueFirstAux (l : List (List Char)) :
    ∀ (seen : List (List Char)) (x : List Char),
      x ∈ uniqueFirstAux seen l ↔ x ∈ l ∧ x ∉ seen := by
  induction l with
  | nil => intro seen x; simp [uniqueFirstAux]
  | cons y rest ih =>
    intro seen x
    rw [uniqueFirstAux]
    by_cases hy : y ∈ seen
    · simp only [hy, if_true, ih]
      constructor
      · exact fun ⟨h1, h2⟩ => ⟨by simp [h1], h2⟩
      · rintro ⟨h1, h2⟩
        rcases List.mem_cons.mp h1 with rfl | h1
        · exact absurd hy h2
        · exact ⟨h1, h2⟩
    · simp only [hy, if_false, List.mem_cons, ih]
      constructor
      · rintro (rfl | ⟨h1, h2⟩)
        · exact ⟨by simp, hy⟩
        · exact ⟨by simp [h1], fun hc => h2 (by simp [hc])⟩
      · rintro ⟨rfl | h1, h2⟩
        · exact Or.inl rfl
        · by_cases hxy : x = y
          · exact Or.inl hxy
          · exact Or.inr ⟨h1, by simp [hxy, h2]⟩

theorem nodup_uniqueFirstAux (l : List (List Char)) :
    ∀ seen : List (List Char), (uniqueFirstAux seen l).Nodup := by
  induction l with
  | nil => intro seen; simp [uniqueFirstAux]
  | cons y rest ih =>
    intro seen
    rw [uniqueFirstAux]
    by_cases hy : y ∈ seen
    · simp only [hy, if_true]; exact ih seen
    · simp only [hy, if_false, List.nodup_cons]
      refine ⟨fun hc => ?_, ih (y :: seen)⟩
      exact ((mem_uniqueFirstAux rest (y :: seen) y).mp hc).2 (by simp)

theorem uniqueFirstAux_of_nodup (l : List (List Char)) :
    ∀ seen : List (List Char), (∀ x ∈ l, x ∉ seen) → l.Nodup →
      uniqueFirstAux seen l = l := by
  induction l with
  | nil => intro seen _ _; rfl
  | cons y rest ih =>
    intro seen hseen hnd
    rw [uniqueFirstAux, if_neg (hseen y (by simp))]
    congr 1
    apply ih
    · intro x hx
      simp only [List.mem_cons, not_or]
      exact ⟨fun hxy => (List.nodup_cons.mp hnd).1 (hxy ▸ hx),
        hseen x (by simp [hx])⟩
    · exact (List.nodup_cons.mp hnd).2

/-- `uniqueFirst` enumerates each distinct value exactly once: its length is
the number of distinct values of the list. -/
theorem length_uniqueFirst (l : List (List Char)) :
    (uniqueFirst l).length = l.dedup.length := by
  have hnd : (uniqueFirst l).Nodup := nodup_uniqueFirstAux l []
  have hfin : (uniqueFirst l).toFinset = l.toFinset := by
    ext x
    simp [List.mem_toFinset, uniqueFirst, mem_uniqueFirstAux]
  calc (uniqueFirst l).length = (uniqueFirst l).toFinset.card :=
        (List.toFinset_card_of_nodup hnd).symm
    _ = l.toFinset.card := by rw [hfin]
    _ = l.dedup.length := List.card_toFinset l

/-- C1 (amended): `countsOk` is true iff signal rows, metadata rows and
images are equally many; on success `validCount` is the number of distinct
`file_id` values and otherwise `identityOk` is false and `validCount` is 0;
and — with pairwise-distinct metadata `file_id`s — `identityOk` holds iff
the `file_id` column equals the signal row-label sequence position by
position (not merely as sorted sets) and every image's filename contains
its paired `file_id`. -/
theorem validate_us_spec (d : USDataset) :
    ((validate_us_data_integrity d).1 = true ↔
      (d.dataIndex.length = d.metaFileIds.length ∧
       d.metaFileIds.length = d.images.length))
    ∧ ((validate_us_data_integrity d).1 = true →
        (validate_us_data_integrity d).2.2 = d.metaFileIds.dedup.length)
    ∧ ((validate_us_data_integrity d).1 = false →
        (validate_us_data_integrity d).2.1 = false ∧
        (validate_us_data_integrity d).2.2 = 0)
    ∧ (d.metaFileIds.Nodup → (validate_us_data_integrity d).1 = true →
        ((validate_us_data_integrity d).2.1 = true ↔
          (d.metaFileIds = d.dataIndex ∧
           ∀ p ∈ d.images.zip d.metaFileIds,
             containsSub p.2 p.1.filename = true))) := by
  by_cases hc : (d.dataIndex.length = d.metaFileIds.length ∧
      d.metaFileIds.length = d.images.length)
  · have h1 : (validate_us_data_integrity d).1 = true := by
      unfold validate_us_data_integrity
      rw [if_pos hc]
    refine ⟨by simp [h1, hc], fun _ => ?_, by simp [h1], fun hnd _ => ?_⟩
    · unfold validate_us_data_integrity
      rw [if_pos hc]
      exact length_uniqueFirst d.metaFileIds
    · have huf : uniqueFirst d.metaFileIds = d.metaFileIds :=
        uniqueFirstAux_of_nodup d.metaFileIds [] (by simp) hnd
      unfold validate_us_data_integrity
      rw [if_pos hc]
      simp only [huf]
      have hlen : d.metaFileIds.length = d.dataIndex.length := hc.1.symm
      rw [npArrayEqAll, if_pos hlen]
      by_cases heq : d.metaFileIds = d.dataIndex
      · have hbeq : (d.metaFileIds == d.dataIndex) = true := by
          simp [heq]
        rw [if_pos hbeq]
        simp only [heq, true_and]
        have hlz : (d.images.zip d.dataIndex).length = d.dataIndex.length := by
          rw [List.length_zip]
          have := hc.1
          have := hc.2
          omega
        rw [← hlz, Nat.beq_eq_true_eq]
        exact List.countP_eq_length
      · have hbeq : (d.metaFileIds == d.dataIndex) = false := by
          simp [heq]
        rw [if_neg (by simp [hbeq])]
        simp [heq]
  · have h1 : (validate_us_data_integrity d).1 = false := by
      unfold validate_us_data_integrity
      rw [if_neg hc]
    refine ⟨by simp [h1, hc], by simp [h1], fun _ => ?_, fun _ h => by simp [h1] at h⟩
    unfold validate_us_data_integrity
    rw [if_neg hc]
    exact ⟨rfl, rfl⟩

/-- Witness for C1 (amended): a consistent two-point dataset passes both
checks with count 2; `usCounterexample` (ids permuted against the row
labels) passes counts but fails the positional identity check. -/
theorem validate_us_spec_witness :
    validate_us_data_integrity
      { dataIndex := ["a".toList, "b".toList]
        metaFileIds := ["a".toList, "b".toList]
        images := [⟨"img_a.jpg".toList⟩, ⟨"img_b.jpg".toList⟩] } = (true, true, 2) ∧
    (validate_us_data_integrity usCounterexample).2.1 = false := by
  constructor
  · have h := validate_us_spec
      { dataIndex := ["a".toList, "b".toList]
        metaFileIds := ["a".toList, "b".toList]
        images := [⟨"img_a.jpg".toList⟩, ⟨"img_b.jpg".toList⟩] }
    have h1 := h.1.mpr (by decide)
    have h2 := h.2.1 h1
    have h4 := (h.2.2.2 (by decide) h1).mpr ⟨rfl, by decide⟩
    refine Prod.ext h1 (Prod.ext h4 ?_)
    rw [h2]; decide
  · have h := validate_us_spec usCounterexample
    have h1 : (validate_us_data_integrity usCounterexample).1 = true := by
      exact h.1.mpr (by decide)
    have := h.2.2.2 (by decide) h1
    by_contra hne
    have htrue : (validate_us_data_integrity usCounterexample).2.1 = true := by
      cases hfc : (validate_us_data_integrity usCounterexample).2.1
      · exact absurd hfc hne
      · rfl
    have := this.mp htrue
    exact absurd this.1 (by decide)

/-! ## DatasetLoader: scanner image collection

Embeds `get_scanner_images` from `load_dataframe_demo.py`: glob all `.png`
files, let `N` be their number, and for `img_idx` in `1..N` append every
file whose path contains `_<img_idx>.png`. -/

/-- `get_scanner_images(folder)` on the list of globbed `.png` paths. -/
def get_scanner_images (images : List (List Char)) : List (List Char) :=
  (List.range' 1 images.length).flatMap (fun img_idx =>
    images.filter (fun file =>
      containsSub ('_' :: natStr img_idx ++ ".png".toList) file))

theorem flatMap_congr_mem {α β : Type} (R : List α) (f g : α → List β)
    (h : ∀ j ∈ R, f j = g j) : R.flatMap f = R.flatMap g := by
  induction R with
  | nil => rfl
  | cons j R' ih =>
    simp only [List.flatMap_cons]
    rw [h j (by simp), ih (fun x hx => h x (by simp [hx]))]

theorem length_filter_or_disjoint {α : Type} (L : List α) (p q : α → Bool)
    (hpq : ∀ x ∈ L, ¬(p x = true ∧ q x = true)) :
    (L.filter fun x => p x || q x).length =
      (L.filter p).length + (L.filter q).length := by
  induction L with
  | nil => simp
  | cons x L' ih =>
    have ih' := ih (fun y hy => hpq y (by simp [hy]))
    rcases hp : p x <;> rcases hq : q x
    · simp [List.filter_cons, hp, hq, ih']
    · simp only [List.filter_cons, hp, hq]
      simp [ih']
      omega
    · simp only [List.filter_cons, hp, hq]
      simp [ih']
      omega
    · exact absurd ⟨hp, hq⟩ (hpq x (by simp))

theorem filter_mem_cons_length {α : Type} (j : Nat) (R : List Nat) (hj : j ∉ R)
    (L : List α) (idxf : α → Nat) :
    (L.filter fun f => decide (idxf f ∈ j :: R)).length =
      (L.filter fun f => idxf f == j).length +
      (L.filter fun f => decide (idxf f ∈ R)).length := by
  have hcg : (L.filter fun f => decide (idxf f ∈ j :: R)) =
      (L.filter fun f => (idxf f == j) || decide (idxf f ∈ R)) := by
    apply List.filter_congr
    intro f _
    by_cases h1 : idxf f = j <;> by_cases h2 : idxf f ∈ R <;>
      simp [List.mem_cons, h1, h2]
  rw [hcg]
  apply length_filter_or_disjoint
  intro x _ ⟨hxp, hxq⟩
  have : idxf x = j := by simpa using hxp
  exact hj (this ▸ (by simpa using hxq))

theorem length_flatMap_fibers {α : Type} (R : List Nat) (hR : R.Nodup)
    (L : List α) (idxf : α → Nat) :
    (R.flatMap fun j => L.filter fun f => idxf f == j).length =
      (L.filter fun f => decide (idxf f ∈ R)).length := by
  induction R with
  | nil => simp
  | cons j R' ih =>
    obtain ⟨hj, hR'⟩ := List.nodup_cons.mp hR
    simp only [List.flatMap_cons, List.length_append, ih hR']
    rw [filter_mem_cons_length j R' hj L idxf]

theorem length_filter_lt_of_mem_not {α : Type} (L : List α) (p : α → Bool)
    (x : α) (hx : x ∈ L) (hpx : p x = false) :
    (L.filter p).length < L.length := by
  induction L with
  | nil => simp at hx
  | cons y L' ih =>
    rcases List.mem_cons.mp hx with rfl | hx'
    · simp only [List.filter_cons, hpx]
      simpa using Nat.lt_succ_of_le (List.length_filter_le p L')
    · by_cases hy : p y
      · simpa [List.filter_cons, hy] using ih hx'
      · simp only [List.filter_cons, hy]
        simpa using Nat.lt_succ_of_lt (ih hx')

theorem mem_range_one (j N : Nat) : j ∈ List.range' 1 N ↔ 1 ≤ j ∧ j ≤ N := by
  rw [List.mem_range']
  constructor
  · rintro ⟨i, hi, rfl⟩; omega
  · intro ⟨h1, h2⟩; exact ⟨j - 1, by omega, by omega⟩

/-- C10: over a folder of `.png` files whose names carry a numeric suffix
(`idxf`, with `_<j>.png` occurring in a file iff `j` is its own suffix, for
`j` in `1..N`): the collector returns exactly the files whose suffix lies
in `1..N`, grouped in ascending suffix order; when every index `1..N` is
hit exactly once all `N` files are returned; and a file whose suffix
exceeds `N` is omitted and leaves the result shorter than `N`. -/
theorem get_scanner_images_spec (files : List (List Char)) (idxf : List Char → Nat)
    (h : ∀ f ∈ files, ∀ j, 1 ≤ j → j ≤ files.length →
      (containsSub ('_' :: natStr j ++ ".png".toList) f = true ↔ idxf f = j)) :
    (get_scanner_images files =
      (List.range' 1 files.length).flatMap
        (fun j => files.filter fun f => idxf f == j))
    ∧ ((∀ j ∈ List.range' 1 files.length,
          (files.filter fun f => idxf f == j).length = 1) →
        (get_scanner_images files).length = files.length)
    ∧ (∀ f₀ ∈ files, files.length < idxf f₀ →
        f₀ ∉ get_scanner_images files ∧
        (get_scanner_images files).length < files.length) := by
  have hmain : get_scanner_images files =
      (List.range' 1 files.length).flatMap
        (fun j => files.filter fun f => idxf f == j) := by
    unfold get_scanner_images
    apply flatMap_congr_mem
    intro j hj
    obtain ⟨hj1, hj2⟩ := (mem_range_one j files.length).mp hj
    apply List.filter_congr
    intro f hf
    have hiff := h f hf j hj1 hj2
    rcases Bool.eq_false_or_eq_true
        (containsSub ('_' :: natStr j ++ ".png".toList) f) with hcs | hcs
    · rw [hcs, Bool.true_eq]
      simpa using hiff.mp hcs
    · have hne : idxf f ≠ j := fun he => by
        rw [hiff.mpr he] at hcs
        exact Bool.true_eq_false.mp hcs
      rw [hcs, Bool.false_eq]
      simpa using hne
  refine ⟨hmain, fun hfib => ?_, fun f₀ hf₀ hgt => ?_⟩
  · rw [hmain]
    have : ∀ R : List Nat, (∀ j ∈ R, (files.filter fun f => idxf f == j).length = 1) →
        (R.flatMap fun j => files.filter fun f => idxf f == j).length = R.length := by
      intro R
      induction R with
      | nil => simp
      | cons j R' ih =>
        intro hR
        simp only [List.flatMap_cons, List.length_append, hR j (by simp),
          ih (fun x hx => hR x (by simp [hx])), List.length_cons]
        omega
    rw [this _ hfib, List.length_range']
  · constructor
    · rw [hmain]
      intro hmem
      obtain ⟨j, hj, hjf⟩ := List.mem_flatMap.mp hmem
      have := (List.mem_filter.mp hjf).2
      have hje : idxf f₀ = j := by simpa using this
      have := (mem_range_one j files.length).mp hj
      omega
    · rw [hmain, length_flatMap_fibers _ (List.nodup_range' 1 files.length) files idxf]
      apply length_filter_lt_of_mem_not files _ f₀ hf₀
      simp only [decide_eq_false_iff_not]
      intro hmem
      have := (mem_range_one _ files.length).mp hmem
      omega

/-- Witness for C10: three well-formed files `a_1.png, a_2.png, a_3.png`
are all returned in index order; with `a_1.png, a_2.png, a_5.png` the file
with suffix 5 > 3 is dropped and only two images come back. -/
theorem get_scanner_images_spec_witness :
    get_scanner_images ["a_2.png".toList, "a_1.png".toList, "a_3.png".toList] =
      ["a_1.png".toList, "a_2.png".toList, "a_3.png".toList] ∧
    "a_5.png".toList ∉
      get_scanner_images ["a_1.png".toList, "a_2.png".toList, "a_5.png".toList] ∧
    (get_scanner_images
      ["a_1.png".toList, "a_2.png".toList, "a_5.png".toList]).length < 3 := by
  refine ⟨?_, ?_, ?_⟩
  · have h := (get_scanner_images_spec
      ["a_2.png".toList, "a_1.png".toList, "a_3.png".toList]
      (fun f => if f = "a_1.png".toList then 1
        else if f = "a_2.png".toList then 2
        else if f = "a_3.png".toList then 3 else 5)
      (by decide)).1
    rw [h]; decide
  · exact ((get_scanner_images_spec
      ["a_1.png".toList, "a_2.png".toList, "a_5.png".toList]
      (fun f => if f = "a_1.png".toList then 1
        else if f = "a_2.png".toList then 2
        else if f = "a_3.png".toList then 3 else 5)
      (by decide)).2.2 "a_5.png".toList (by decide) (by decide)).1
  · exact ((get_scanner_images_spec
      ["a_1.png".toList, "a_2.png".toList, "a_5.png".toList]
      (fun f => if f = "a_1.png".toList then 1
        else if f = "a_2.png".toList then 2
        else if f = "a_3.png".toList then 3 else 5)
      (by decide)).2.2 "a_5.png".toList (by decide) (by decide)).2

/-! ## PathWalker

Embeds `get_child_folders_at_level` from `lib/Metadata.py`.  A directory is
a listability flag (False models a `PermissionError` on `os.listdir`) plus
named entries; an entry is a file (`none`) or a subdirectory (`some`). -/

/-- A directory tree.  `listable = false`: listing raises `PermissionError`. -/
inductive FS where
  | dir (listable : Bool) (entries : List (List Char × Option FS))

def dirListable : FS → Bool
  | .dir b _ => b

def dirEntries : FS → List (List Char × Option FS)
  | .dir _ es => es

/-- The `current_level == target_level` arm of `traverse_dir`: list the
current folder and collect its subdirectory entries (the `os.path.isdir`
filter), skipping everything on a permission error. -/
def collectSubdirs (p : List Char) (f : FS) : List (List Char) :=
  if dirListable f then
    (dirEntries f).filterMap (fun e => e.2.map (fun _ => p ++ '/' :: e.1))
  else []

/-- `traverse_dir(current_path, current_level)` with `k = target_level -
current_level` remaining levels: recurse into subdirectories until the
target level, then collect. -/
def traverseDir : Nat → List Char → FS → List (List Char)
  | 0, p, f => collectSubdirs p f
  | k + 1, p, f =>
    if dirListable f then
      (dirEntries f).flatMap (fun e =>
        match e.2 with
        | some sub => traverseDir k (p ++ '/' :: e.1) sub
        | none => [])
    else []

/-- `get_child_folders_at_level(path, target_level)`: starts
`traverse_dir(path, 1)`, which returns nothing when `target_level < 1`. -/
def get_child_folders_at_level (p : List Char) (f : FS) (target : Nat) :
    List (List Char) :=
  if target = 0 then [] else traverseDir (target - 1) p f

/-- A chain of directory names: each step enters a subdirectory entry of a
listable directory (the spec's notion of a directory reachable by
recursing through subdirectories). -/
def dirChain : FS → List (List Char) → Prop
  | _, [] => True
  | f, n :: rest =>
    dirListable f = true ∧ ∃ sub, (n, some sub) ∈ dirEntries f ∧ dirChain sub rest

/-- `os.path.join` iterated along a chain of names. -/
def joinSegs (p : List Char) : List (List Char) → List Char
  | [] => p
  | n :: rest => joinSegs (p ++ '/' :: n) rest

theorem mem_traverseDir (k : Nat) :
    ∀ (f : FS) (p q : List Char),
      q ∈ traverseDir k p f ↔
        ∃ segs, segs.length = k + 1 ∧ dirChain f segs ∧ q = joinSegs p segs := by
  induction k with
  | zero =>
    intro f p q
    rw [traverseDir, collectSubdirs]
    by_cases hb : dirListable f
    · rw [if_pos hb]
      simp only [List.mem_filterMap, Option.map_eq_some']
      constructor
      · rintro ⟨⟨n, osub⟩, hmem, sub, hsub, rfl⟩
        exact ⟨[n], rfl, ⟨hb, sub, hsub ▸ hmem, trivial⟩, rfl⟩
      · rintro ⟨segs, hlen, hchain, rfl⟩
        match segs, hlen with
        | [n], _ =>
          obtain ⟨-, sub, hmem, -⟩ := hchain
          exact ⟨(n, some sub), hmem, sub, rfl, rfl⟩
    · rw [if_neg hb]
      simp only [List.not_mem_nil, false_iff]
      rintro ⟨segs, hlen, hchain, rfl⟩
      match segs, hlen with
      | n :: rest, _ => exact hb (by simpa using hchain.1)
  | succ k ih =>
    intro f p q
    rw [traverseDir]
    by_cases hb : dirListable f
    · rw [if_pos hb]
      simp only [List.mem_flatMap]
      constructor
      · rintro ⟨⟨n, osub⟩, hmem, hq⟩
        match osub, hq with
        | some sub, hq =>
          obtain ⟨segs', hlen, hchain, rfl⟩ := (ih sub (p ++ '/' :: n) q).mp hq
          exact ⟨n :: segs', by simp [hlen], ⟨hb, sub, hmem, hchain⟩, rfl⟩
      · rintro ⟨segs, hlen, hchain, rfl⟩
        match segs, hlen with
        | n :: rest, hlen =>
          obtain ⟨-, sub, hmem, hchain'⟩ := hchain
          refine ⟨(n, some sub), hmem, ?_⟩
          exact (ih sub (p ++ '/' :: n) _).mpr
            ⟨rest, by simpa using hlen, hchain', rfl⟩
    · rw [if_neg hb]
      simp only [List.not_mem_nil, false_iff]
      rintro ⟨segs, hlen, hchain, rfl⟩
      match segs, hlen with
      | n :: rest, _ => exact hb (by simpa using hchain.1)

/-- C8: a path is returned by the depth-limited walker at `target` iff it
joins a chain of exactly `target` directory names, each step a
subdirectory entry of a listable directory (so only directories, never
files, are collected, and anything below a permission-failing directory is
silently skipped); for `target = 1` the returned paths are exactly the
root's direct child directories; and a directory whose listing fails
yields the empty result rather than an error. -/
theorem get_child_folders_at_level_spec :
    (∀ (f : FS) (p q : List Char) (target : Nat),
      q ∈ get_child_folders_at_level p f target ↔
        (1 ≤ target ∧ ∃ segs, segs.length = target ∧ dirChain f segs ∧
          q = joinSegs p segs))
    ∧ (∀ (f : FS) (p q : List Char),
      q ∈ get_child_folders_at_level p f 1 ↔
        (dirListable f = true ∧ ∃ n sub, (n, some sub) ∈ dirEntries f ∧
          q = p ++ '/' :: n))
    ∧ (∀ (f : FS) (p : List Char) (target : Nat),
      dirListable f = false → get_child_folders_at_level p f target = []) := by
  have hmain : ∀ (f : FS) (p q : List Char) (target : Nat),
      q ∈ get_child_folders_at_level p f target ↔
        (1 ≤ target ∧ ∃ segs, segs.length = target ∧ dirChain f segs ∧
          q = joinSegs p segs) := by
    intro f p q target
    rw [get_child_folders_at_level]
    match target with
    | 0 => simp
    | t + 1 =>
      rw [if_neg (by omega)]
      simp only [Nat.add_sub_cancel]
      rw [mem_traverseDir t f p q]
      constructor
      · exact fun h => ⟨by omega, h⟩
      · exact fun h => h.2
  refine ⟨hmain, fun f p q => ?_, fun f p target hb => ?_⟩
  · rw [hmain f p q 1]
    constructor
    · rintro ⟨-, segs, hlen, hchain, rfl⟩
      match segs, hlen with
      | [n], _ =>
        obtain ⟨hb, sub, hmem, -⟩ := hchain
        exact ⟨hb, n, sub, hmem, rfl⟩
    · rintro ⟨hb, n, sub, hmem, rfl⟩
      exact ⟨by omega, [n], rfl, ⟨hb, sub, hmem, trivial⟩, rfl⟩
  · rw [get_child_folders_at_level]
    match target with
    | 0 => simp
    | t + 1 =>
      rw [if_neg (by omega)]
      simp only [Nat.add_sub_cancel]
      match t with
      | 0 =>
        rw [traverseDir, collectSubdirs, if_neg (by simp [hb])]
      | s + 1 =>
        rw [traverseDir, if_neg (by simp [hb])]

/-- Witness for C8: in a small tree with one listable child directory, one
file and one unlistable directory, level 1 returns exactly the child
directories; an unlistable root yields nothing. -/
theorem get_child_folders_at_level_spec_witness :
    "r/a".toList ∈ get_child_folders_at_level "r".toList
      (.dir true [("a".toList, some (.dir true [])),
                  ("f.txt".toList, none)]) 1 ∧
    get_child_folders_at_level "r".toList
      (.dir false [("a".toList, some (.dir true []))]) 3 = [] := by
  constructor
  · apply (get_child_folders_at_level_spec.2.1 _ _ _).mpr
    refine ⟨rfl, "a".toList, .dir true [], by simp [dirEntries], by decide⟩
  · exact get_child_folders_at_level_spec.2.2 _ _ 3 rfl

/-! ## MetadataStore

Embeds `write_metadata` / `read_metadata` from `lib/Metadata.py`.  A JSON
document is an ordered tree of strings, numbers, arrays and key-value maps;
a folder is a list of named files whose content either parses to a
document (`some`) or is malformed (`none`); the filesystem maps folder
paths to folders. -/

/-- Parsed JSON values.  `json.dump`/`json.load` round-trip these exactly,
preserving key order, so a file's serialized content is modelled by the
document itself. -/
inductive JVal where
  | str (s : List Char)
  | num (n : Int)
  | arr (xs : List JVal)
  | obj (fields : List (List Char × JVal))

/-- A file: basename and parsed content (`none`: not valid JSON). -/
abbrev MFile := List Char × Option JVal

abbrev MFolder := List MFile

/-- Folder paths mapped to their files. -/
abbrev MFS := List (List Char × MFolder)

def lookupFolder (fs : MFS) (p : List Char) : Option MFolder :=
  match fs with
  | [] => none
  | (q, files) :: rest => if q = p then some files else lookupFolder rest p

def updateFolder (fs : MFS) (p : List Char) (files : MFolder) : MFS :=
  match fs with
  | [] => []
  | (q, fls) :: rest =>
    if q = p then (q, files) :: rest else (q, fls) :: updateFolder rest p files

/-- Writing a file into a folder: overwrite an existing file of that name in
place, otherwise create it (it then lists last). -/
def setFile (files : MFolder) (name : List Char) (content : Option JVal) : MFolder :=
  match files with
  | [] => [(name, content)]
  | (n, c) :: rest =>
    if n = name then (name, content) :: rest else (n, c) :: setFile rest name content

/-- The filename suffix `_metadata.json` appended by `write_metadata`. -/
def metaSuffix : List Char := "_metadata.json".toList

/-- One `json.dump(d, open(os.path.join(p, f + '_metadata.json'), 'w'))`
step of `write_metadata`: fails (`FileNotFoundError`) when the folder does
not exist — the folder is NOT created. -/
def writeOneMetadata (fs : MFS) (d : JVal) (p base : List Char) :
    Except PyErr MFS :=
  match lookupFolder fs p with
  | none => .error .notFound
  | some files =>
    .ok (updateFolder fs p (setFile files (base ++ metaSuffix) (some d)))

def write_metadataAux (fs : MFS) :
    List (JVal × List Char × List Char) → Except PyErr MFS
  | [] => .ok fs
  | (d, p, f) :: rest => do
    let fs' ← writeOneMetadata fs d p f
    write_metadataAux fs' rest

/-- `write_metadata(metadatas, paths, filenames)`: writes each document in
turn (`zip` truncates to the shortest list, as in Python) and returns
`True`. -/
def write_metadata (fs : MFS) (metadatas : List JVal)
    (paths filenames : List (List Char)) : Except PyErr (MFS × Bool) :=
  (write_metadataAux fs (metadatas.zip (paths.zip filenames))).map (fun fs' => (fs', true))

/-- The glob `*.json` of a folder (missing folders glob to nothing). -/
def jsonFilesOf (fs : MFS) (p : List Char) : List MFile :=
  ((lookupFolder fs p).getD []).filter (fun f => ".json".toList.isSuffixOf f.1)

/-- `read_metadata(paths)`: takes the FIRST globbed JSON file (raising
`IndexError`, glossed `metadataNotFound`, when there is none), derives
`file_id` by splitting the basename on `_metadata.json`, and parses the
file; a parse failure is logged and the function then dies on its unbound
`metadata` variable (glossed `malformedMetadata`). -/
def read_metadata (fs : MFS) (p : List Char) :
    Except PyErr (JVal × List Char) :=
  match jsonFilesOf fs p with
  | [] => .error .metadataNotFound
  | (name, content) :: _ =>
    let file_name := afterLastSlash (p ++ '/' :: name)
    let file_id := beforeFirst metaSuffix file_name
    match content with
    | none => .error .malformedMetadata
    | some d => .ok (d, file_id)

theorem containsSub_of_startsWith (l₁ l₂ : List Char) (h : l₁ <+: l₂) :
    containsSub l₁ l₂ = true := by
  cases l₂ with
  | nil =>
    rw [List.prefix_nil] at h
    simp [containsSub, h]
  | cons c rest =>
    rw [containsSub, Bool.or_eq_true]
    exact Or.inl (List.isPrefixOf_iff_prefix.mpr h)

theorem metaSuffix_not_prefix_append (x : List Char) (hx : x ≠ [])
    (hsub : containsSub metaSuffix x = false) :
    metaSuffix.isPrefixOf (x ++ metaSuffix) = false := by
  by_contra hcon
  have hval : metaSuffix.isPrefixOf (x ++ metaSuffix) = true := by
    cases h' : metaSuffix.isPrefixOf (x ++ metaSuffix)
    · exact absurd h' hcon
    · rfl
  obtain ⟨t, ht⟩ := List.isPrefixOf_iff_prefix.mp hval
  by_cases hlen : metaSuffix.length ≤ x.length
  · -- long remainder: metaSuffix would be a prefix (hence substring) of x
    have htake : (metaSuffix ++ t).take metaSuffix.length = metaSuffix :=
      List.take_left metaSuffix t
    rw [ht, List.take_append_of_le_length hlen] at htake
    have : metaSuffix <+: x := htake ▸ List.take_prefix _ x
    rw [containsSub_of_startsWith _ _ this] at hsub
    exact Bool.true_eq_false.mp hsub
  · -- short remainder: metaSuffix would overlap itself, but its first
    -- character occurs nowhere else in it
    push_neg at hlen
    have h1 : (metaSuffix ++ t)[x.length]? = metaSuffix[x.length]? :=
      List.getElem?_append_left hlen
    have h2 : (x ++ metaSuffix)[x.length]? = metaSuffix[0]? := by
      rw [List.getElem?_append_right (Nat.le_refl _)]
      simp
    rw [ht, h2] at h1
    have hfact : ∀ i, i < 14 → metaSuffix[i]? = metaSuffix[0]? → i = 0 := by decide
    have hxlen : x.length < 14 := by
      have : metaSuffix.length = 14 := by decide
      omega
    have := hfact x.length hxlen h1.symm
    exact hx (List.length_eq_zero.mp this)

theorem beforeFirst_strip (base : List Char)
    (h : containsSub metaSuffix base = false) :
    beforeFirst metaSuffix (base ++ metaSuffix) = base := by
  induction base with
  | nil => decide
  | cons c base' ih =>
    have hcons : containsSub metaSuffix (c :: base') = false := h
    rw [containsSub, Bool.or_eq_false_iff] at hcons
    have hnp := metaSuffix_not_prefix_append (c :: base') (by simp) h
    rw [List.cons_append] at hnp
    rw [List.cons_append, beforeFirst, if_neg (by simp [hnp])]
    rw [ih hcons.2]

theorem foldl_afterLastSlash_no_slash (name : List Char) (h : '/' ∉ name) :
    ∀ acc : List Char,
      name.foldl (fun acc c => if c = '/' then [] else acc ++ [c]) acc =
        acc ++ name := by
  induction name with
  | nil => simp
  | cons c rest ih =>
    intro acc
    have hc : c ≠ '/' := fun hc => h (by simp [hc])
    rw [List.foldl_cons, if_neg hc, ih (fun hm => h (by simp [hm]))]
    simp

theorem afterLastSlash_append (p name : List Char) (h : '/' ∉ name) :
    afterLastSlash (p ++ '/' :: name) = name := by
  rw [afterLastSlash]
  have : p ++ '/' :: name = (p ++ ['/']) ++ name := by simp
  rw [this, List.foldl_append]
  rw [foldl_afterLastSlash_no_slash name h]
  have : (p ++ ['/']).foldl (fun acc c => if c = '/' then [] else acc ++ [c]) [] = [] := by
    rw [List.foldl_append]
    simp
  rw [this, List.nil_append]

theorem lookupFolder_updateFolder (fs : MFS) (p : List Char) (files g : MFolder)
    (h : lookupFolder fs p = some files) :
    lookupFolder (updateFolder fs p g) p = some g := by
  induction fs with
  | nil => simp [lookupFolder] at h
  | cons e rest ih =>
    match e with
    | (q, fls) =>
      by_cases hq : q = p
      · rw [updateFolder, if_pos hq, lookupFolder, if_pos hq]
      · rw [lookupFolder, if_neg hq] at h
        rw [updateFolder, if_neg hq, lookupFolder, if_neg hq]
        exact ih h

theorem json_suffix_base (base : List Char) :
    ".json".toList.isSuffixOf (base ++ metaSuffix) = true := by
  rw [List.isSuffixOf_iff_suffix]
  refine ⟨base ++ "_metadata".toList, ?_⟩
  rw [List.append_assoc]
  congr 1

theorem jsonFilter_setFile (fname : List Char) (v : Option JVal)
    (hjson : ".json".toList.isSuffixOf fname = true) :
    ∀ files : MFolder, (files.map Prod.fst).Nodup →
      (∀ f ∈ files, ".json".toList.isSuffixOf f.1 = true → f.1 = fname) →
      (setFile files fname v).filter
        (fun f => ".json".toList.isSuffixOf f.1) = [(fname, v)] := by
  intro files
  induction files with
  | nil =>
    intro _ _
    rw [setFile, List.filter_cons, if_pos hjson, List.filter_nil]
  | cons e rest ih =>
    intro hnodup honly
    match e with
    | (n, c) =>
      by_cases hn : n = fname
      · rw [setFile, if_pos hn, List.filter_cons, if_pos hjson]
        have hrest : rest.filter (fun f => ".json".toList.isSuffixOf f.1) = [] := by
          rw [List.filter_eq_nil_iff]
          intro f hf hjf
          have hf1 : f.1 = fname := honly f (List.mem_cons_of_mem _ hf) hjf
          have hmem : fname ∈ rest.map Prod.fst := by
            rw [← hf1]
            exact List.mem_map_of_mem Prod.fst hf
          rw [List.map_cons, List.nodup_cons] at hnodup
          exact hnodup.1 (hn ▸ hmem)
        rw [hrest]
      · have hnj : ".json".toList.isSuffixOf n = false := by
          cases hj : ".json".toList.isSuffixOf n
          · rfl
          · exact absurd (honly (n, c) (by simp) hj) hn
        rw [setFile, if_neg hn, List.filter_cons,
          if_neg (by rw [hnj]; exact Bool.false_ne_true)]
        rw [List.map_cons, List.nodup_cons] at hnodup
        exact ih hnodup.2 (fun f hf => honly f (by simp [hf]))

/-- C6 (amended): when the target folder exists, and after the write it
holds no JSON file besides the written one, and `_metadata.json` does not
occur inside the base filename, writing then reading round-trips: the
parsed document equals the one written and `file_id` is the base filename.
(The write does NOT create a missing folder: it fails, see the
counterexample.) -/
theorem metadata_write_read_roundtrip (fs : MFS) (p base : List Char)
    (files : MFolder) (d : JVal)
    (hfold : lookupFolder fs p = some files)
    (hnodup : (files.map Prod.fst).Nodup)
    (honly : ∀ f ∈ files,
      ".json".toList.isSuffixOf f.1 = true → f.1 = base ++ metaSuffix)
    (hbase : containsSub metaSuffix base = false)
    (hslash : '/' ∉ base) :
    ∃ fs', writeOneMetadata fs d p base = .ok fs' ∧
      read_metadata fs' p = .ok (d, base) := by
  refine ⟨updateFolder fs p (setFile files (base ++ metaSuffix) (some d)), ?_, ?_⟩
  · rw [writeOneMetadata, hfold]
  · have hjs : jsonFilesOf
        (updateFolder fs p (setFile files (base ++ metaSuffix) (some d))) p =
        [(base ++ metaSuffix, some d)] := by
      rw [jsonFilesOf,
        lookupFolder_updateFolder fs p files _ hfold, Option.getD_some]
      exact jsonFilter_setFile (base ++ metaSuffix) (some d)
        (json_suffix_base base) files hnodup honly
    rw [read_metadata, hjs]
    have hsl : '/' ∉ base ++ metaSuffix := by
      simp only [List.mem_append, not_or]
      exact ⟨hslash, by decide⟩
    simp only [afterLastSlash_append p (base ++ metaSuffix) hsl,
      beforeFirst_strip base hbase]

/-- Counterexample to C6: writing to a folder path that does not exist
fails with a `FileNotFoundError` instead of creating the folder, so the
claimed round-trip does not even start. -/
theorem metadata_roundtrip_counterexample :
    writeOneMetadata [] (JVal.obj []) "data/290".toList "scanner".toList =
      .error .notFound := rfl

/-- Witness for C6 (amended): a concrete write into an existing empty
folder followed by a read returns the document and the base filename. -/
theorem metadata_write_read_roundtrip_witness :
    ∃ fs', writeOneMetadata [("d".toList, [])]
        (JVal.obj [("k".toList, JVal.num 3)]) "d".toList "scanner".toList = .ok fs' ∧
      read_metadata fs' "d".toList =
        .ok (JVal.obj [("k".toList, JVal.num 3)], "scanner".toList) :=
  metadata_write_read_roundtrip [("d".toList, [])] "d".toList "scanner".toList
    [] (JVal.obj [("k".toList, JVal.num 3)])
    rfl (by simp) (by simp) (by decide) (by decide)

/-- C3 (amended): the metadata read takes the FIRST JSON file under the
folder (it does not fail when several exist — see the counterexample);
it fails when no JSON file exists, fails when the chosen file does not
parse, and otherwise returns the parsed document with `file_id` obtained
by stripping the `_metadata.json` suffix of the chosen filename. -/
theorem read_metadata_spec :
    (∀ (fs : MFS) (p : List Char), jsonFilesOf fs p = [] →
      read_metadata fs p = .error .metadataNotFound)
    ∧ (∀ (fs : MFS) (p name : List Char) (rest : List MFile),
      jsonFilesOf fs p = (name, (none : Option JVal)) :: rest →
      read_metadata fs p = .error .malformedMetadata)
    ∧ (∀ (fs : MFS) (p base : List Char) (d : JVal) (rest : List MFile),
      jsonFilesOf fs p = (base ++ metaSuffix, some d) :: rest →
      containsSub metaSuffix base = false → '/' ∉ base →
      read_metadata fs p = .ok (d, base)) := by
  refine ⟨?_, ?_, ?_⟩
  · intro fs p h
    rw [read_metadata, h]
  · intro fs p name rest h
    rw [read_metadata, h]
  · intro fs p base d rest h hbase hslash
    rw [read_metadata, h]
    have hsl : '/' ∉ base ++ metaSuffix := by
      simp only [List.mem_append, not_or]
      exact ⟨hslash, by decide⟩
    simp only [afterLastSlash_append p (base ++ metaSuffix) hsl,
      beforeFirst_strip base hbase]

/-- The ambiguous folder: two parseable JSON metadata files side by side. -/
def ambiguousFolder : MFS :=
  [("m".toList,
    [("a_metadata.json".toList, some (JVal.num 1)),
     ("b_metadata.json".toList, some (JVal.num 2))])]

/-- Counterexample to C3: with two JSON files in the folder the read does
not fail with `ambiguousMetadataFile` — it silently parses the first one. -/
theorem read_metadata_counterexample :
    (jsonFilesOf ambiguousFolder "m".toList).length = 2 ∧
    read_metadata ambiguousFolder "m".toList = .ok (JVal.num 1, "a".toList) :=
  ⟨rfl, rfl⟩

/-- Witness for C3 (amended): the three behaviours at concrete folders. -/
theorem read_metadata_spec_witness :
    read_metadata [] "x".toList = .error .metadataNotFound ∧
    read_metadata [("m".toList, [("a_metadata.json".toList, none)])] "m".toList =
      .error .malformedMetadata ∧
    read_metadata [("m".toList, [("scanner_metadata.json".toList, some (JVal.num 5))])]
      "m".toList = .ok (JVal.num 5, "scanner".toList) :=
  ⟨read_metadata_spec.1 [] "x".toList rfl,
   read_metadata_spec.2.1 _ "m".toList "a_metadata.json".toList [] rfl,
   read_metadata_spec.2.2 _ "m".toList "scanner".toList (JVal.num 5) [] rfl
     (by decide) (by decide)⟩

/-! ## PointCloudTransformer

Embeds the `transformPointclouds` branch of `Transformation` from
`lib/PointcloudTransform.py`.  Matrices are exact rational 4x4 matrices;
a point cloud is a list of points in homogeneous coordinates.  The Python
loop has no exception handler: any error raised while handling one `.ply`
file propagates and kills the whole batch. -/

/-- A camera-pose file: name plus its parsed 4x4 transformation matrix. -/
structure PoseFile where
  name : List Char
  mat : Matrix (Fin 4) (Fin 4) ℚ

/-- A point-cloud file: name plus its points. -/
structure PlyFile where
  name : List Char
  cloud : List (Fin 4 → ℚ)

/-- `np.linalg.inv`: raises `LinAlgError` exactly on singular input;
otherwise the inverse, `det⁻¹ • adjugate`. -/
def npLinalgInv (m : Matrix (Fin 4) (Fin 4) ℚ) :
    Except PyErr (Matrix (Fin 4) (Fin 4) ℚ) :=
  if m.det = 0 then .error .singularMatrix else .ok (m.det⁻¹ • m.adjugate)

/-- Matrix application with optional inversion
(`transformToOriginalPointcloudOrientation`), then the homogeneous
transform of every point and the write-back. -/
def applyPose (invert : Bool) (m : Matrix (Fin 4) (Fin 4) ℚ)
    (cloud : List (Fin 4 → ℚ)) : Except PyErr (List (Fin 4 → ℚ)) := do
  let mat ← if invert then npLinalgInv m else pure m
  pure (cloud.map (fun v => mat.mulVec v))

/-- One camera-pose iteration of the inner loop: the pose's numeric ID is
extracted first (an exception there propagates as well); a
`Transformation_matrix` pose whose number equals the point cloud's ID
transforms the current, freshly re-read file content. -/
def poseStep (invert : Bool) (id : Nat) (cur : List (Fin 4 → ℚ))
    (pose : PoseFile) : Except PyErr (List (Fin 4 → ℚ)) := do
  let pn ← extract_id pose.name
  if containsSub "Transformation_matrix".toList pose.name ∧ pn = id then
    applyPose invert pose.mat cur
  else pure cur

/-- Handling of one `.ply` file: extract its ID, then run every camera
pose over it in order. -/
def processPly (invert : Bool) (poses : List PoseFile) (ply : PlyFile) :
    Except PyErr PlyFile := do
  let id ← extract_id ply.name
  let cloud ← poses.foldlM (poseStep invert id) ply.cloud
  pure ⟨ply.name, cloud⟩

/-- The batch walk over the point-cloud files.  Returns the files
rewritten before any failure together with the first error (`none` when
the batch completes): an uncaught exception on one file aborts the rest
of the walk. -/
def Transformation (invert : Bool) (poses : List PoseFile) :
    List PlyFile → List PlyFile × Option PyErr
  | [] => ([], none)
  | f :: rest =>
    if containsSub ".ply".toList f.name then
      match processPly invert poses f with
      | .error e => ([], some e)
      | .ok f' =>
        match Transformation invert poses rest with
        | (ws, e) => (f' :: ws, e)
    else Transformation invert poses rest

theorem processPly_singular (pose : PoseFile) (ply : PlyFile) (i : Nat)
    (hply : extract_id ply.name = .ok i)
    (hpose : extract_id pose.name = .ok i)
    (hc : containsSub "Transformation_matrix".toList pose.name = true)
    (hdet : pose.mat.det = 0) :
    processPly true [pose] ply = .error .singularMatrix := by
  rw [processPly, hply]
  show [pose].foldlM (poseStep true i) ply.cloud >>= _ = _
  rw [List.foldlM, poseStep, hpose]
  show (if containsSub "Transformation_matrix".toList pose.name ∧ i = i then
      applyPose true pose.mat ply.cloud else pure ply.cloud) >>= _ >>= _ = _
  rw [if_pos ⟨hc, rfl⟩, applyPose]
  show (npLinalgInv pose.mat >>= _) >>= _ >>= _ = _
  rw [npLinalgInv, if_pos hdet]
  rfl

theorem transformation_err_head (invert : Bool) (poses : List PoseFile)
    (f : PlyFile) (rest : List PlyFile) (e : PyErr)
    (hply : containsSub ".ply".toList f.name = true)
    (hproc : processPly invert poses f = .error e) :
    Transformation invert poses (f :: rest) = ([], some e) := by
  rw [Transformation, if_pos hply, hproc]

theorem transformation_ok_head (invert : Bool) (poses : List PoseFile)
    (f : PlyFile) (rest : List PlyFile) (f' : PlyFile)
    (hply : containsSub ".ply".toList f.name = true)
    (hproc : processPly invert poses f = .ok f') :
    Transformation invert poses (f :: rest) =
      ((f' :: (Transformation invert poses rest).1),
        (Transformation invert poses rest).2) := by
  rw [Transformation, if_pos hply, hproc]

/-- The singular pose (zero matrix, ID 1) and the two point-cloud files of
the refuting batch. -/
def singPose : PoseFile := ⟨"Transformation_matrix_1.json".toList, 0⟩

def plyA : PlyFile := ⟨"cloud_1.ply".toList, []⟩

def plyB : PlyFile := ⟨"cloud_2.ply".toList, []⟩

/-- Counterexample to C4: in the batch `[plyA, plyB]`, the singular-matrix
failure on `plyA` aborts the whole run — `plyB` is not processed — even
though `plyB` on its own is transformed fine.  Per-file isolation does not
hold. -/
theorem transformation_counterexample :
    Transformation true [singPose] [plyA, plyB] = ([], some .singularMatrix) ∧
    Transformation true [singPose] [plyB] =
      ([⟨"cloud_2.ply".toList, []⟩], none) := by
  constructor
  · apply transformation_err_head true [singPose] plyA [plyB] .singularMatrix rfl
    apply processPly_singular singPose plyA 1 rfl rfl rfl
    simp [singPose]
  · rfl

/-- C4 (amended): a failure while transforming one point-cloud file — in
particular a `SingularMatrix` failure when inversion is requested on a
non-invertible matched pose — aborts the WHOLE remaining batch: the failing
file and every later file are left unprocessed, and only the files handled
before the failure keep their writes. -/
theorem transformation_abort_spec :
    (∀ (pose : PoseFile) (ply : PlyFile) (i : Nat),
      extract_id ply.name = .ok i → extract_id pose.name = .ok i →
      containsSub "Transformation_matrix".toList pose.name = true →
      pose.mat.det = 0 →
      processPly true [pose] ply = .error .singularMatrix)
    ∧ (∀ (invert : Bool) (poses : List PoseFile) (f : PlyFile)
        (rest : List PlyFile) (e : PyErr),
      containsSub ".ply".toList f.name = true →
      processPly invert poses f = .error e →
      Transformation invert poses (f :: rest) = ([], some e))
    ∧ (∀ (invert : Bool) (poses : List PoseFile) (f : PlyFile)
        (rest : List PlyFile) (f' : PlyFile),
      containsSub ".ply".toList f.name = true →
      processPly invert poses f = .ok f' →
      Transformation invert poses (f :: rest) =
        ((f' :: (Transformation invert poses rest).1),
          (Transformation invert poses rest).2)) :=
  ⟨processPly_singular, transformation_err_head, transformation_ok_head⟩

/-- Witness for C4 (amended): the singular pose kills `plyA`'s transform;
with `plyA` at the head of the batch the whole batch dies with
`singularMatrix` and nothing is written; a succeeding head is recorded. -/
theorem transformation_abort_spec_witness :
    processPly true [singPose] plyA = .error .singularMatrix ∧
    Transformation true [singPose] [plyA, plyB] = ([], some .singularMatrix) ∧
    Transformation true [] [plyB] = ([⟨"cloud_2.ply".toList, []⟩], none) := by
  refine ⟨?_, ?_, ?_⟩
  · apply transformation_abort_spec.1 singPose plyA 1 rfl rfl rfl
    simp [singPose]
  · apply transformation_abort_spec.2.1 true [singPose] plyA [plyB] .singularMatrix rfl
    apply transformation_abort_spec.1 singPose plyA 1 rfl rfl rfl
    simp [singPose]
  · have h := transformation_abort_spec.2.2 true [] plyB []
      ⟨"cloud_2.ply".toList, []⟩ rfl rfl
    rw [h]
    rfl

/-! ## DatasetLoader: `load_data`

Embeds `load_data` from `load_dataframe_demo.py`.  The folder tree produced
by `os.walk(data_path)` is modelled as the list of folders, each carrying
its path and its files by globbed extension together with the content the
loader would read from them. -/

/-- A folder of the walked tree. -/
structure SFolder where
  path : List Char
  /-- `*.csv`: filename and the column of samples `pd.read_csv` yields -/
  csvs : List (List Char × List Int)
  /-- `*.jpg`: filenames -/
  jpgs : List (List Char)
  /-- `*.png`: filenames -/
  pngs : List (List Char)
  /-- `*.json`: filename and parsed content (`none`: malformed) -/
  jsons : List (List Char × Option JVal)

/-- The assembled `us_dict`: the transposed signal table (row label and
samples per signal), the metadata `file_id` column, and the loaded image
paths. -/
structure USDict where
  data : List (List Char × List Int)
  metadata : List (List Char)
  images : List (List Char)

/-- One `original`/`segmented` pair of image-path sequences. -/
structure ScanSide where
  original : List (List Char)
  segmented : List (List Char)

/-- One hemisphere of `scan_dict`: color and depth sides plus poses. -/
structure ScanHemi where
  color : ScanSide
  depth : ScanSide
  poses : List (List JVal)

/-- `scan_dict`. -/
structure ScanDict where
  top : ScanHemi
  bottom : ScanHemi

/-- The loader's running state; `dataUs` is the function-local `data_us`
variable, unassigned (`none`) until a `US_signals` folder is processed. -/
structure LoadState where
  usD : USDict
  dataUs : Option (List (List Char × List Int))
  scanD : ScanDict

def initLoadState : LoadState :=
  ⟨⟨[], [], []⟩, none, ⟨⟨⟨[], []⟩, ⟨[], []⟩, []⟩, ⟨⟨[], []⟩, ⟨[], []⟩, []⟩⟩⟩

/-- The last file of the glob whose path contains `_<sig>_Ascan` — later
matches overwrite the column assigned by earlier ones. -/
def lastAscanMatch (sig : Nat) (files : List (List Char × List Int)) :
    Option (List Char × List Int) :=
  files.foldl (fun acc f =>
    if containsSub ('_' :: natStr sig ++ "_Ascan".toList) f.1 then some f else acc) none

/-- The transposed signal table: one row per column `1..N`; a matched
column carries the filename-derived label (`file.split('_Ascan')[0]`
basename) and the file's samples, an unmatched column keeps its numeric
label and stays empty (NaN).  Row counts are taken as read — a csv of
deviating length simply yields a deviating row, uncaught here. -/
def buildSignalTable (files : List (List Char × List Int)) :
    List (List Char × List Int) :=
  (List.range' 1 files.length).map (fun sig =>
    match lastAscanMatch sig files with
    | some f => (afterLastSlash (beforeFirst "_Ascan".toList f.1), f.2)
    | none => (natStr sig, []))

/-- The inline ultrasound image collection: for `img` in `1..N` append
every jpg path containing `_<img>.jpg`. -/
def usImages (files : List (List Char)) : List (List Char) :=
  (List.range' 1 files.length).flatMap (fun img =>
    files.filter (fun file => containsSub ('_' :: natStr img ++ ".jpg".toList) file))

/-- First value of an object's field, as `meta_us['Data Labels']`. -/
def lookupField (fields : List (List Char × JVal)) (key : List Char) :
    Option JVal :=
  match fields with
  | [] => none
  | (k, v) :: rest => if k = key then some v else lookupField rest key

/-- The metadata loop of the ultrasound branch: every json of the folder
whose path mentions `ultrasound` is parsed (a parse failure propagates),
its `Data Labels` sub-document fetched (`KeyError` when absent, an error
when not a mapping) and the row keys become the `file_id` column; the last
matching file wins. -/
def loadUsMeta (folderPath : List Char) (jsons : List (List Char × Option JVal))
    (cur : List (List Char)) : Except PyErr (List (List Char)) :=
  jsons.foldlM (fun acc f =>
    if containsSub "ultrasound".toList (folderPath ++ '/' :: f.1) then
      match f.2 with
      | none => .error .malformedMetadata
      | some (JVal.obj fields) =>
        match lookupField fields "Data Labels".toList with
        | none => .error .keyError
        | some (JVal.obj rows) => .ok (rows.map Prod.fst)
        | some _ => .error .typeError
      | some _ => .error .typeError
    else .ok acc) cur

/-- One ultrasound-branch folder iteration. -/
def usFolderStep (sample_id : List Char) (st : LoadState) (folder : SFolder) :
    Except PyErr LoadState :=
  if containsSub sample_id folder.path then do
    let st ←
      if containsSub "US_signals".toList folder.path then
        match folder.csvs with
        | [] => .error .indexError
        | _ :: _ =>
          let table := buildSignalTable
            (folder.csvs.map (fun f => (folder.path ++ '/' :: f.1, f.2)))
          pure { st with usD := { st.usD with data := table },
                         dataUs := some table }
      else pure st
    let st :=
      if containsSub "IMG_pictures".toList folder.path then
        { st with usD := { st.usD with
          images := usImages (folder.jpgs.map (fun n => folder.path ++ '/' :: n)) } }
      else st
    let meta ← loadUsMeta folder.path folder.jsons st.usD.metadata
    pure { st with usD := { st.usD with metadata := meta } }
  else pure st

/-- The ultrasound branch: the folder loop, then the `len(data_us) > 0`
debug guard, which raises `UnboundLocalError` when no `US_signals` folder
ever assigned `data_us`. -/
def usBranch (sample_id : List Char) (folders : List SFolder)
    (st : LoadState) : Except PyErr LoadState := do
  let st ← folders.foldlM (usFolderStep sample_id) st
  match st.dataUs with
  | none => .error .unboundLocal
  | some _ => pure st

/-- Python iteration over a parsed json value, as in
`[np.array(pose) for pose in pose_data]`. -/
def jvalIter : JVal → Except PyErr (List JVal)
  | .arr xs => .ok xs
  | .obj fields => .ok (fields.map (fun f => JVal.str f.1))
  | .str s => .ok (s.map (fun c => JVal.str [c]))
  | .num _ => .error .typeError

def insertSortedBy {α : Type} (le : α → α → Bool) (x : α) : List α → List α
  | [] => [x]
  | y :: rest => if le x y then x :: y :: rest else y :: insertSortedBy le x rest

/-- `sorted(...)` by the given order. -/
def sortBy {α : Type} (le : α → α → Bool) (l : List α) : List α :=
  l.foldr (insertSortedBy le) []

/-- The pose loop over the sorted json paths: for `i` in `1..N` every file
containing `_<i>.json` is parsed and appended; the flag records whether
`scan_dict[scan]['poses']` was assigned at all. -/
def posesLoop (files : List (List Char × Option JVal)) :
    Except PyErr (List (List JVal) × Bool) :=
  (List.range' 1 files.length).foldlM (fun acc i =>
    files.foldlM (fun acc2 f =>
      if containsSub ('_' :: natStr i ++ ".json".toList) f.1 then
        match f.2 with
        | none => .error .malformedMetadata
        | some v => do
          let rows ← jvalIter v
          pure (acc2.1 ++ [rows], true)
      else pure acc2) acc) ([], false)

/-- The per-hemisphere body of the scanner branch: the side × image-type
grid of `get_scanner_images` calls, then the pose loading. -/
def scanHemiStep (folder : SFolder) (h : ScanHemi) : Except PyErr ScanHemi := do
  let fullPngs := folder.pngs.map (fun n => folder.path ++ '/' :: n)
  let h :=
    if containsSub "color".toList folder.path then
      let h :=
        if containsSub "IMG_color_original".toList folder.path then
          { h with color := { h.color with original := get_scanner_images fullPngs } }
        else h
      if containsSub "IMG_color_segmented".toList folder.path then
        { h with color := { h.color with segmented := get_scanner_images fullPngs } }
      else h
    else h
  let h :=
    if containsSub "depth".toList folder.path then
      let h :=
        if containsSub "IMG_depth_original".toList folder.path then
          { h with depth := { h.depth with original := get_scanner_images fullPngs } }
        else h
      if containsSub "IMG_depth_segmented".toList folder.path then
        { h with depth := { h.depth with segmented := get_scanner_images fullPngs } }
      else h
    else h
  if containsSub "poses".toList folder.path then do
    let sortedJs := sortBy (fun a b => lexLe a.1 b.1)
      (folder.jsons.map (fun j => (folder.path ++ '/' :: j.1, j.2)))
    let pl ← posesLoop sortedJs
    pure (if pl.2 then { h with poses := pl.1 } else h)
  else pure h

/-- One scanner-branch folder iteration. -/
def scanFolderStep (sample_id : List Char) (st : LoadState) (folder : SFolder) :
    Except PyErr LoadState :=
  if containsSub sample_id folder.path then do
    let st ←
      if containsSub "top".toList folder.path then do
        let h ← scanHemiStep folder st.scanD.top
        pure { st with scanD := { st.scanD with top := h } }
      else pure st
    if containsSub "bottom".toList folder.path then do
      let h ← scanHemiStep folder st.scanD.bottom
      pure { st with scanD := { st.scanD with bottom := h } }
    else pure st
  else pure st

def scanBranch (sample_id : List Char) (folders : List SFolder)
    (st : LoadState) : Except PyErr LoadState :=
  folders.foldlM (scanFolderStep sample_id) st

/-- Python `s[-3:]`. -/
def last3 (s : List Char) : List Char := s.drop (s.length - 3)

/-- The platform-token dispatch: `if type[-3:] in US_ID ... elif type[-3:]
in SCAN_ID ...` — substring tests against the two platform names, not
equality tests. -/
def processType (sample_id : List Char) (folders : List SFolder)
    (st : LoadState) (tok : List Char) : Except PyErr LoadState :=
  if containsSub (last3 tok) "UltrasoundPlatform".toList then
    usBranch sample_id folders st
  else if containsSub (last3 tok) "ScannerPlatform".toList then
    scanBranch sample_id folders st
  else pure st

def loadTypes (sample_id : List Char) (folders : List SFolder)
    (toks : List (List Char)) : Except PyErr LoadState :=
  toks.foldlM (processType sample_id folders) initLoadState

/-- Python's `s.split(',')` (never empty; `''` splits to `['']`). -/
def splitCommaGo : List Char → List Char → List (List Char)
  | [], cur => [cur.reverse]
  | c :: rest, cur =>
    if c = ',' then cur.reverse :: splitCommaGo rest []
    else splitCommaGo rest (c :: cur)

def splitComma (s : List Char) : List (List Char) := splitCommaGo s []

/-- `load_data(data_path, sample_id, platform_type)`: `folders` is the
`os.walk` result under `data_path`; returns the `data` dictionary
(`us_dict`, `scan_dict`). -/
def load_data (folders : List SFolder) (sample_id platform_type : List Char) :
    Except PyErr (USDict × ScanDict) :=
  (loadTypes sample_id folders (splitComma platform_type)).map
    (fun st => (st.usD, st.scanD))

/-! Concrete folder trees exercising the loader. -/

/-- An ultrasound image folder for sample 290 — the tree has NO
`US_signals` folder. -/
def fPics : SFolder :=
  ⟨"/d/290/UltrasoundPlatform/IMG_pictures".toList,
   [], ["us_img_1.jpg".toList], [], []⟩

/-- A signal folder for sample 290 — the tree has NO `IMG_pictures`
folder. -/
def fSignals : SFolder :=
  ⟨"/d/290/UltrasoundPlatform/US_signals".toList,
   [("sig_290_1_Ascan.csv".toList, [5, 7])], [], [], []⟩

/-- A top-hemisphere original-color folder — every other scanner
subfolder of the tree is absent. -/
def fColorTop : SFolder :=
  ⟨"/d/290/scan/top/color/IMG_color_original".toList,
   [], [], ["IMG_color_original_1.png".toList], []⟩

/-- C5 (code bug): when the tree holds no `US_signals` folder at all, the
ultrasound load crashes on the unbound local `data_us` instead of
returning an empty signal table — while a missing `IMG_pictures` folder
or missing scanner subfolders do yield empty collections with the rest of
the dataset intact, as the claim states. -/
theorem load_data_missing_subfolder :
    load_data [fPics] "290".toList "ultrasound".toList = .error .unboundLocal ∧
    (load_data [fSignals] "290".toList "ultrasound".toList).map
      (fun r => r.1.images) = .ok [] ∧
    (load_data [fSignals] "290".toList "ultrasound".toList).map
      (fun r => r.1.data) = .ok [("sig_290_1".toList, [5, 7])] ∧
    (load_data [fColorTop] "290".toList "scanner".toList).map
      (fun r => (r.2.top.color.original, r.2.top.color.segmented,
        r.2.top.depth.original, r.2.top.depth.segmented,
        r.2.bottom.color.original)) =
      .ok (["/d/290/scan/top/color/IMG_color_original/IMG_color_original_1.png".toList],
        [], [], [], []) :=
  ⟨rfl, rfl, rfl, rfl⟩

theorem processType_ignored (tok : List Char)
    (h1 : containsSub (last3 tok) "UltrasoundPlatform".toList = false)
    (h2 : containsSub (last3 tok) "ScannerPlatform".toList = false) :
    ∀ (sample_id : List Char) (folders : List SFolder) (st : LoadState),
      processType sample_id folders st tok = .ok st := by
  intro sid folders st
  rw [processType, if_neg (by rw [h1]; exact Bool.false_ne_true),
    if_neg (by rw [h2]; exact Bool.false_ne_true)]
  rfl

theorem foldlM_processType_drop (tok : List Char)
    (h1 : containsSub (last3 tok) "UltrasoundPlatform".toList = false)
    (h2 : containsSub (last3 tok) "ScannerPlatform".toList = false)
    (sample_id : List Char) (folders : List SFolder) :
    ∀ (pre post : List (List Char)) (st : LoadState),
      (pre ++ tok :: post).foldlM (processType sample_id folders) st =
        (pre ++ post).foldlM (processType sample_id folders) st := by
  intro pre
  induction pre with
  | nil =>
    intro post st
    rw [List.nil_append, List.nil_append, List.foldlM_cons,
      processType_ignored tok h1 h2 sample_id folders st]
    rfl
  | cons x pre' ih =>
    intro post st
    rw [List.cons_append, List.cons_append, List.foldlM_cons, List.foldlM_cons]
    cases hx : processType sample_id folders st x with
    | error e => rfl
    | ok st' =>
      show Except.ok st' >>= _ = Except.ok st' >>= _
      exact ih post st'

/-- C9 (amended): a platform token is dispatched by its LAST THREE
characters as substring of the platform names, not by equality: a token
whose last three characters occur in neither `UltrasoundPlatform` nor
`ScannerPlatform` is ignored (same result as omitting it), but a token
such as `und` — or the empty token — triggers the full ultrasound load. -/
theorem load_data_token_dispatch :
    (∀ (tok : List Char),
      containsSub (last3 tok) "UltrasoundPlatform".toList = false →
      containsSub (last3 tok) "ScannerPlatform".toList = false →
      ∀ (sample_id : List Char) (folders : List SFolder) (st : LoadState),
        processType sample_id folders st tok = .ok st)
    ∧ (∀ (tok : List Char),
      containsSub (last3 tok) "UltrasoundPlatform".toList = false →
      containsSub (last3 tok) "ScannerPlatform".toList = false →
      ∀ (pre post : List (List Char)) (sample_id : List Char)
        (folders : List SFolder),
        loadTypes sample_id folders (pre ++ tok :: post) =
          loadTypes sample_id folders (pre ++ post))
    ∧ (∀ (tok : List Char),
      containsSub (last3 tok) "UltrasoundPlatform".toList = true →
      ∀ (sample_id : List Char) (folders : List SFolder) (st : LoadState),
        processType sample_id folders st tok = usBranch sample_id folders st)
    ∧ containsSub (last3 "und".toList) "UltrasoundPlatform".toList = true
    ∧ containsSub (last3 [] ) "UltrasoundPlatform".toList = true := by
  refine ⟨processType_ignored, ?_, ?_, rfl, rfl⟩
  · intro tok h1 h2 pre post sid folders
    rw [loadTypes, loadTypes]
    exact foldlM_processType_drop tok h1 h2 sid folders pre post initLoadState
  · intro tok h1 sid folders st
    rw [processType, if_pos h1]

/-- Witness for C9 (amended): `xyz` is ignored — prepended to `scanner` it
leaves the result unchanged — while the non-platform token `und`
dispatches to the ultrasound branch. -/
theorem load_data_token_dispatch_witness :
    processType "290".toList [fPics] initLoadState "xyz".toList =
      .ok initLoadState ∧
    loadTypes "290".toList [fPics] ["xyz".toList, "scanner".toList] =
      loadTypes "290".toList [fPics] ["scanner".toList] ∧
    processType "290".toList [fPics] initLoadState "und".toList =
      usBranch "290".toList [fPics] initLoadState := by
  refine ⟨?_, ?_, ?_⟩
  · exact load_data_token_dispatch.1 "xyz".toList rfl rfl "290".toList [fPics]
      initLoadState
  · exact load_data_token_dispatch.2.1 "xyz".toList rfl rfl []
      ["scanner".toList] "290".toList [fPics]
  · exact load_data_token_dispatch.2.2.1 "und".toList rfl "290".toList [fPics]
      initLoadState

/-- Counterexample to C9: `und` is not a platform name, yet appending it
to the requested platforms changes the result — here it makes the whole
load crash (the tree has no `US_signals` folder), where the request
without it succeeds. -/
theorem load_data_unknown_token_counterexample :
    load_data [fPics] "290".toList "und,xyz".toList = .error .unboundLocal ∧
    load_data [fPics] "290".toList "xyz".toList =
      .ok (⟨[], [], []⟩, initLoadState.scanD) ∧
    load_data [fPics] "290".toList "und,xyz".toList ≠
      load_data [fPics] "290".toList "xyz".toList := by
  refine ⟨rfl, rfl, ?_⟩
  intro h
  have h1 : load_data [fPics] "290".toList "und,xyz".toList =
      .error .unboundLocal := rfl
  have h2 : load_data [fPics] "290".toList "xyz".toList =
      .ok (⟨[], [], []⟩, initLoadState.scanD) := rfl
  rw [h1, h2] at h
  exact Except.noConfusion h

end Histology
